import Mathlib

/-!
Verification development for the grpc-c repository.

Shallow embedding of the HPACK codec (src/src/hpack.c), the completion
queue and byte buffer (grpc_core.c section of src/src/hpack.c), the call
and channel layer (grpc_channel.c), the HTTP/2 flow controller
(src/src/flow_control.c), the HTTP/2 connection state
(src/src/http2_transport.c) and the server port setup
(src/src/grpc_server.c).

Conventions: machine integers are embedded as Nat or Int with explicit
reductions mod 2 ^ 32 where C unsigned arithmetic wraps; int32_t values
are Int constrained to the window given by wrap32; a NULL-able pointer
argument is an Option; fallible functions return Option or a result
structure carrying the C return code. Buffers are lists of byte values.
-/

namespace GrpcC

/-- Wrap an integer to int32_t range, the effect of storing a 32-bit
result into an int32_t field (two's complement, as on the target ABI). -/
def wrap32 (n : Int) : Int :=
  let r := n % 4294967296
  if r < 2147483648 then r else r - 4294967296

/-- Cast an integer to uint32_t (reduction mod 2 ^ 32, nonnegative). -/
def uint32_of (n : Int) : Nat := (n % 4294967296).toNat

/-- Result of a bounded HPACK encoding call: the C return value
(some bytes_written, or none for -1) and the bytes actually stored in
the output buffer, which the C code writes sequentially from index 0. -/
structure EncResult where
  ret : Option Nat
  written : List Nat
deriving DecidableEq

/-- Byte sequence emitted by the continuation loop of
hpack_encode_integer for a residual value v, ignoring buffer bounds:
while v is at least 128 emit (v and 0x7F) or 0x80 and shift v right by
7, then emit the final byte. The fuel bounds the recursion; fuel 5
covers every uint32_t residual (proved via the 128 ^ fuel bound). -/
def hpackIntBytes : Nat → Nat → List Nat
  | 0, v => [v]
  | fuel + 1, v =>
    if v < 128 then [v] else (v % 128 + 128) :: hpackIntBytes fuel (v / 128)

/-- The continuation-byte loop of hpack_encode_integer
(src/src/hpack.c lines 111-118) with the per-byte bound check: before
each store the code checks pos against output_len and returns -1 when
the buffer is exhausted, leaving the bytes already stored in place.
room is output_len minus the current position. -/
def hpackIntLoop : Nat → Nat → Nat → EncResult
  | 0, _, _ => ⟨none, []⟩
  | fuel + 1, v, room =>
    if v < 128 then
      if room = 0 then ⟨none, []⟩ else ⟨some 1, [v]⟩
    else
      if room = 0 then ⟨none, []⟩
      else
        let r := hpackIntLoop fuel (v / 128) (room - 1)
        ⟨r.ret.map (· + 1), (v % 128 + 128) :: r.written⟩

/-- hpack_encode_integer from src/src/hpack.c lines 95-122. value is a
uint32_t, reduced mod 2 ^ 32 on entry; max_prefix is (1 shl prefix_bits)
minus 1. The NULL-output guard is part of the first condition in C and
is not modelled (the output buffer is the returned list). -/
def hpack_encode_integer (value prefix_bits output_len : Nat) : EncResult :=
  if output_len = 0 ∨ prefix_bits > 7 then ⟨none, []⟩
  else
    let v := value % 4294967296
    let maxp := 2 ^ prefix_bits - 1
    if v < maxp then ⟨some 1, [v]⟩
    else
      let r := hpackIntLoop 5 (v - maxp) (output_len - 1)
      ⟨r.ret.map (· + 1), maxp :: r.written⟩

/-- Length of the full encoding hpack_encode_integer produces when the
buffer is large enough. -/
def hpackIntEncodedLen (value prefix_bits : Nat) : Nat :=
  let v := value % 4294967296
  let maxp := 2 ^ prefix_bits - 1
  if v < maxp then 1 else 1 + (hpackIntBytes 5 (v - maxp)).length

/-- The continuation loop of hpack_decode_integer (src/src/hpack.c
lines 147-159): each byte contributes (byte and 0x7F) shl m to the
accumulated uint32_t value (the multiplication and addition wrap mod
2 ^ 32), m grows by 7, a byte with the top bit clear ends the integer,
and the overflow guard rejects m above 28 on a continued integer.
Bytes are uint8_t, hence the mod 256. -/
def hpackDecLoop : List Nat → Nat → Nat → Nat → Option (Nat × Nat)
  | [], _, _, _ => none
  | b :: rest, acc, m, pos =>
    let byte := b % 256
    let acc2 := (acc + byte % 128 * 2 ^ m) % 4294967296
    let m2 := m + 7
    if byte < 128 then some (acc2, pos + 1)
    else if m2 > 28 then none
    else hpackDecLoop rest acc2 m2 (pos + 1)

/-- hpack_decode_integer from src/src/hpack.c lines 132-162. Returns
the decoded value and the number of bytes read, or none for -1. The
bitwise AND of the first byte with the prefix mask is mod 2 ^ prefix_bits. -/
def hpack_decode_integer (input : List Nat) (prefix_bits : Nat) : Option (Nat × Nat) :=
  if prefix_bits > 7 then none
  else
    match input with
    | [] => none
    | b0 :: rest =>
      let maxp := 2 ^ prefix_bits - 1
      let v := b0 % 256 % 2 ^ prefix_bits
      if v < maxp then some (v, 1)
      else hpackDecLoop rest maxp 0 1

/-- Content of a NUL-terminated C string stored in a byte buffer:
strlen and every string read stop at the first zero byte. -/
def cStr (l : List Nat) : List Nat := l.takeWhile (· != 0)

/-- One metadata entry (struct grpc_metadata in include/grpc/grpc.h):
key and value are the byte buffers the two pointers reference, and
value_length is the explicit length field. -/
structure Metadata where
  key : List Nat
  value : List Nat
  value_length : Nat
deriving DecidableEq

/-- hpack_encode_literal_header from src/src/hpack.c lines 172-211.
name and value are NUL-terminated C strings, so their effective
contents are cStr name and cStr value of lengths strlen. Emits the
representation octet 0x00, the 7-bit-prefix name length, the name
bytes, the 7-bit-prefix value length and the value bytes, with the
same incremental bound checks as the source; on failure the bytes
already stored stay in the buffer. -/
def hpack_encode_literal_header (name value : List Nat) (output_len : Nat) : EncResult :=
  let nameStr := cStr name
  let valueStr := cStr value
  let name_len := nameStr.length
  let value_len := valueStr.length
  if output_len = 0 then ⟨none, []⟩
  else if output_len < 2 + name_len + value_len then ⟨none, []⟩
  else
    let r1 := hpack_encode_integer name_len 7 (output_len - 1)
    match r1.ret with
    | none => ⟨none, 0 :: r1.written⟩
    | some nlb =>
      let pos := 1 + nlb
      if pos + name_len > output_len then ⟨none, 0 :: r1.written⟩
      else
        let pos2 := pos + name_len
        let r2 := hpack_encode_integer value_len 7 (output_len - pos2)
        match r2.ret with
        | none => ⟨none, 0 :: r1.written ++ nameStr ++ r2.written⟩
        | some vlb =>
          if pos2 + vlb + value_len > output_len then
            ⟨none, 0 :: r1.written ++ nameStr ++ r2.written⟩
          else
            ⟨some (pos2 + vlb + value_len),
             0 :: r1.written ++ nameStr ++ r2.written ++ valueStr⟩

/-- hpack_decode_literal_header from src/src/hpack.c lines 250-295.
Returns the raw key bytes, the raw value bytes and the number of bytes
read, or none for -1. The first octet (representation type) is skipped
without inspection; each length is decoded with a 7-bit prefix from the
remaining input and the declared lengths are checked against the input
size before the bytes are copied out. -/
def hpack_decode_literal_header (input : List Nat) : Option (List Nat × List Nat × Nat) :=
  if input.length < 2 then none
  else
    match hpack_decode_integer (input.drop 1) 7 with
    | none => none
    | some (key_len, len_bytes) =>
      let pos := 1 + len_bytes
      if pos + key_len > input.length then none
      else
        let key := (input.drop pos).take key_len
        let pos2 := pos + key_len
        match hpack_decode_integer (input.drop pos2) 7 with
        | none => none
        | some (value_len, len_bytes2) =>
          let pos3 := pos2 + len_bytes2
          if pos3 + value_len > input.length then none
          else some (key, (input.drop pos3).take value_len, pos3 + value_len)

/-- The per-entry loop of hpack_encode_metadata (src/src/hpack.c
lines 227-237): each entry is literal-encoded into the remaining
room (output_len - pos); any failure aborts with -1. Returns the
concatenated bytes, whose length is the returned position. -/
def hpackEncMetaLoop : List Metadata → Nat → Option (List Nat)
  | [], _ => some []
  | e :: tl, room =>
    let r := hpack_encode_literal_header e.key e.value room
    match r.ret with
    | none => none
    | some n =>
      match hpackEncMetaLoop tl (room - n) with
      | none => none
      | some rest => some (r.written ++ rest)

/-- hpack_encode_metadata from src/src/hpack.c lines 220-240. -/
def hpack_encode_metadata (m : List Metadata) (output_len : Nat) : Option (List Nat) :=
  hpackEncMetaLoop m output_len

/-- The while loop of hpack_decode_metadata (src/src/hpack.c
lines 319-356): while input remains, decode one literal header, store
the entry with value_length set to strlen of the decoded value (the
value buffer is NUL-terminated by the source, so strlen stops at the
first zero byte of the raw value), and advance by the bytes read. The
fuel is the input length; every successful literal decode consumes at
least one byte, so the fuel-exhausted branch is unreachable from
hpack_decode_metadata. -/
def hpackDecMetaLoop : Nat → List Nat → Option (List Metadata)
  | _, [] => some []
  | 0, _ :: _ => none
  | fuel + 1, b :: rest =>
    match hpack_decode_literal_header (b :: rest) with
    | none => none
    | some (key, value, n) =>
      match hpackDecMetaLoop fuel ((b :: rest).drop n) with
      | none => none
      | some tl => some (⟨key, value, (cStr value).length⟩ :: tl)

/-- hpack_decode_metadata from src/src/hpack.c lines 304-359. Returns
the decoded entries in order, or none for -1. -/
def hpack_decode_metadata (input : List Nat) : Option (List Metadata) :=
  hpackDecMetaLoop input.length input

/-- Concrete metadata array used as a roundtrip example: one entry,
key k, value val, correct explicit length. -/
def c1SampleGood : List Metadata := [⟨[107], [118, 97, 108], 3⟩]

/-- Concrete metadata array whose single value is the binary byte
sequence 97 0 98 of explicit length 3: a binary value with an interior
zero byte. -/
def c1SampleNul : List Metadata := [⟨[107], [97, 0, 98], 3⟩]

/-- grpc_event (include/grpc/grpc.h): completion type, success flag and
the opaque user tag (modelled as a number; 0 stands for the zero
initialisation of the C struct). -/
structure GrpcEvent where
  type : Int
  success : Bool
  tag : Nat
deriving DecidableEq

/-- grpc_completion_queue (src/src/grpc_internal.h lines 90-97): the
head-to-tail linked list of pending events (head first) and the
shutdown flag. The mutex and condvar only serialise access and are not
part of the sequential state. -/
structure CompletionQueue where
  events : List GrpcEvent
  shutdown : Bool
deriving DecidableEq

/-- completion_queue_push_event from grpc_core.c (src/src/hpack.c
lines 420-438): NULL queue returns immediately; otherwise the event is
appended at the tail and the condvar signalled. The source performs no
shutdown check on this path (allocation is modelled as succeeding). -/
def completion_queue_push_event (cq : Option CompletionQueue) (event : GrpcEvent) :
    Option CompletionQueue :=
  match cq with
  | none => none
  | some q => some { q with events := q.events ++ [event] }

/-- grpc_completion_queue_shutdown from grpc_core.c (src/src/hpack.c
lines 485-492): NULL is a no-op; otherwise the shutdown flag is set
and waiters are broadcast. -/
def grpc_completion_queue_shutdown (cq : Option CompletionQueue) : Option CompletionQueue :=
  match cq with
  | none => none
  | some q => some { q with shutdown := true }

/-- grpc_completion_queue_next from grpc_core.c (src/src/hpack.c
lines 440-483). The deadline argument only bounds the condvar wait; in
the sequential model no other thread pushes during the wait, so an
empty non-shutdown queue takes the timed-out branch (type 0). NULL
yields the zero event with type -1; shutdown with empty queue yields
type 1 (GRPC_QUEUE_SHUTDOWN); otherwise the head event is popped. -/
def grpc_completion_queue_next (cq : Option CompletionQueue) (_deadline : Int) :
    GrpcEvent × Option CompletionQueue :=
  match cq with
  | none => (⟨-1, false, 0⟩, none)
  | some q =>
    match q.events with
    | [] =>
      if q.shutdown then (⟨1, false, 0⟩, some q) else (⟨0, false, 0⟩, some q)
    | e :: rest => (e, some { q with events := rest })

/-- grpc_completion_queue_destroy from grpc_core.c (src/src/hpack.c
lines 494-509): NULL is a no-op; otherwise all remaining nodes and the
queue itself are freed. -/
def grpc_completion_queue_destroy (cq : Option CompletionQueue) : Option CompletionQueue :=
  match cq with
  | none => none
  | some _ => none

/-- grpc_byte_buffer (include/grpc/grpc.h): owned bytes with length.
The capacity field always equals the length at creation. -/
structure ByteBuffer where
  data : List Nat
deriving DecidableEq

/-- grpc_byte_buffer_destroy from grpc_core.c (src/src/hpack.c
lines 557-561): NULL is a no-op; otherwise data and buffer are freed. -/
def grpc_byte_buffer_destroy (buffer : Option ByteBuffer) : Option ByteBuffer :=
  match buffer with
  | none => none
  | some _ => none

/-- http2_stream fields used by the flow controller and the stream
registry (src/src/grpc_internal.h lines 67-82): the stream id and the
two int32_t flow-control windows. -/
structure Http2Stream where
  id : Nat
  local_window_size : Int
  remote_window_size : Int
deriving DecidableEq

/-- http2_connection fields used here (src/src/grpc_internal.h
lines 47-64): role, uint32_t next_stream_id, the stream list in
insertion order, the two int32_t connection windows and the settings. -/
structure Http2Connection where
  is_client : Bool
  next_stream_id : Nat
  streams : List Http2Stream
  local_window_size : Int
  remote_window_size : Int
  max_frame_size : Nat
  max_concurrent_streams : Nat
deriving DecidableEq

/-- http2_connection_create from src/src/http2_transport.c lines 31-59
composed with http2_flow_control_init_connection
(src/src/flow_control.c lines 203-210): a client starts with
next_stream_id 1, a server with 2; both windows start at 65535,
max frame size 16384, max concurrent streams 100. The socket is not
opened here (lazy connection). -/
def http2_connection_create (is_client : Bool) : Http2Connection :=
  { is_client := is_client
    next_stream_id := if is_client then 1 else 2
    streams := []
    local_window_size := 65535
    remote_window_size := 65535
    max_frame_size := 16384
    max_concurrent_streams := 100 }

/-- grpc_call fields relevant to batches and cancellation
(src/src/grpc_internal.h lines 109-125): whether the cq pointer is
non-NULL, the cancelled flag and the grpc_status_code. -/
structure GrpcCall where
  has_cq : Bool
  cancelled : Bool
  status : Int
deriving DecidableEq

/-- grpc_call_error values used by the embedded functions
(include/grpc/grpc.h). -/
inductive CallError where
  | GRPC_CALL_OK
  | GRPC_CALL_ERROR
deriving DecidableEq

/-- grpc_call_start_batch from grpc_channel.c (src/unnamed/part_006
lines 126-150): NULL call or NULL call-cq returns GRPC_CALL_ERROR; the
ops array and nops are ignored by the source (simplified
implementation), and a single event with type 1 (GRPC_OP_COMPLETE),
success true and the batch tag is pushed onto the call-s completion
queue immediately. The queue the call references is passed as explicit
state. -/
def grpc_call_start_batch (call : Option GrpcCall) (cq : CompletionQueue)
    (_nops : Nat) (tag : Nat) : CallError × CompletionQueue :=
  match call with
  | none => (CallError.GRPC_CALL_ERROR, cq)
  | some c =>
    if c.has_cq = false then (CallError.GRPC_CALL_ERROR, cq)
    else
      match completion_queue_push_event (some cq) ⟨1, true, tag⟩ with
      | none => (CallError.GRPC_CALL_OK, cq)
      | some q => (CallError.GRPC_CALL_OK, q)

/-- grpc_call_cancel from grpc_channel.c (src/unnamed/part_006
lines 152-163): NULL returns GRPC_CALL_ERROR; otherwise the cancelled
flag is set and the status becomes GRPC_STATUS_CANCELLED (1). No
pending batch is completed and nothing is pushed to any queue. -/
def grpc_call_cancel (call : Option GrpcCall) : CallError × Option GrpcCall :=
  match call with
  | none => (CallError.GRPC_CALL_ERROR, none)
  | some c => (CallError.GRPC_CALL_OK, some { c with cancelled := true, status := 1 })

/-- grpc_call_destroy from grpc_channel.c (src/unnamed/part_006
lines 165-205): NULL is a no-op; otherwise the stream and all owned
resources are freed. -/
def grpc_call_destroy (call : Option GrpcCall) : Option GrpcCall :=
  match call with
  | none => none
  | some _ => none

/-- grpc_channel (src/src/grpc_internal.h lines 100-106): target string
and the lazily created connection. -/
structure GrpcChannel where
  target : List Char
  connection : Option Http2Connection
deriving DecidableEq

/-- grpc_channel_destroy from grpc_channel.c (src/unnamed/part_006
lines 54-68): NULL is a no-op; otherwise the connection is destroyed
and the channel freed. -/
def grpc_channel_destroy (channel : Option GrpcChannel) : Option GrpcChannel :=
  match channel with
  | none => none
  | some _ => none

/-- Stream-id assignment performed by grpc_channel_create_call
(src/unnamed/part_006 lines 104-113) when the channel has a
connection: the call takes the current next_stream_id and the counter
advances by 2 (uint32_t arithmetic). -/
def grpc_channel_create_call_assign (conn : Http2Connection) : Nat × Http2Connection :=
  (conn.next_stream_id,
   { conn with next_stream_id := (conn.next_stream_id + 2) % 4294967296 })

/-- Stream ids assigned by n successive call creations on one
connection. -/
def assignedStreamIds : Http2Connection → Nat → List Nat
  | _, 0 => []
  | conn, n + 1 =>
    let r := grpc_channel_create_call_assign conn
    r.1 :: assignedStreamIds r.2 n

/-- WINDOW_UPDATE frame as handed to http2_connection_send_frame by
http2_flow_control_send_window_update: the addressed stream id (0 for
the connection scope) and the 31-bit increment. -/
structure WindowUpdateFrame where
  stream_id : Nat
  increment : Nat
deriving DecidableEq

/-- http2_flow_control_send_window_update from src/src/flow_control.c
lines 22-43: NULL connection, a zero increment or an increment above
0x7FFFFFFF yield -1 and no frame; otherwise the 4-byte WINDOW_UPDATE
frame is sent (the socket write is modelled as succeeding and the
frame recorded). -/
def http2_flow_control_send_window_update (conn : Option Http2Connection)
    (stream_id : Nat) (increment : Nat) : Int × List WindowUpdateFrame :=
  match conn with
  | none => (-1, [])
  | some _ =>
    if increment = 0 ∨ increment > 2147483647 then (-1, [])
    else (0, [⟨stream_id, increment⟩])

/-- The stream-scope branch of http2_flow_control_receive_window_update
(src/src/flow_control.c lines 69-91): linear scan for the first stream
with the given id; if found, its remote window is increased (int32_t
wrap) and the dead overflow check compares the int32_t result against
0x7FFFFFFF; a missing stream is a silent success. Returns the C return
value and the updated stream list. -/
def streamWindowUpdate : List Http2Stream → Nat → Nat → Int × List Http2Stream
  | [], _, _ => (0, [])
  | s :: rest, sid, inc =>
    if s.id = sid then
      let w := wrap32 (s.remote_window_size + inc)
      let s2 := { s with remote_window_size := w }
      if w > 2147483647 then (-1, s2 :: rest) else (0, s2 :: rest)
    else
      let r := streamWindowUpdate rest sid inc
      (r.1, s :: r.2)

/-- http2_flow_control_receive_window_update from
src/src/flow_control.c lines 52-94. The increment must be in
[1, 0x7FFFFFFF]; stream id 0 addresses the connection scope. The
windows are int32_t, so the addition wraps (wrap32) and the subsequent
check against 0x7FFFFFFF can never fire. -/
def http2_flow_control_receive_window_update (conn : Option Http2Connection)
    (stream_id : Nat) (increment : Nat) : Int × Option Http2Connection :=
  match conn with
  | none => (-1, none)
  | some c =>
    if increment = 0 ∨ increment > 2147483647 then (-1, some c)
    else if stream_id = 0 then
      let w := wrap32 (c.remote_window_size + increment)
      let c2 := { c with remote_window_size := w }
      if w > 2147483647 then (-1, some c2) else (0, some c2)
    else
      let r := streamWindowUpdate c.streams stream_id increment
      (r.1, some { c with streams := r.2 })

/-- Outcome of http2_flow_control_consume_recv_window: the C return
value, the updated connection and stream, and the WINDOW_UPDATE frames
emitted along the way. -/
structure ConsumeRecvResult where
  ret : Int
  conn : Option Http2Connection
  stream : Option Http2Stream
  frames : List WindowUpdateFrame
deriving DecidableEq

/-- http2_flow_control_consume_recv_window from src/src/flow_control.c
lines 150-197. data_len is a size_t whose int32_t cast guards the
validation; both subtractions store int32_t results (wrap32). The
connection scope is checked, decremented and possibly replenished to
65535 (emitting a WINDOW_UPDATE with increment 65535 - current when the
window fell below 65535 / 2 = 32767) before the stream scope is even
checked, so a stream underflow returns -1 with the connection already
updated. The increment is computed as a uint32_t. -/
def http2_flow_control_consume_recv_window (conn : Option Http2Connection)
    (stream : Option Http2Stream) (data_len : Nat) : ConsumeRecvResult :=
  match conn, stream with
  | none, s => ⟨-1, none, s, []⟩
  | some c, none => ⟨-1, some c, none, []⟩
  | some c, some s =>
    let dl := wrap32 data_len
    if dl < 0 ∨ dl > 65535 then ⟨-1, some c, some s, []⟩
    else if c.local_window_size < dl then ⟨-1, some c, some s, []⟩
    else
      let c2 := { c with local_window_size := wrap32 (c.local_window_size - data_len) }
      let connStep :=
        if c2.local_window_size < 32767 then
          let inc := uint32_of (65535 - c2.local_window_size)
          if inc > 0 then
            ({ c2 with local_window_size := 65535 },
             (http2_flow_control_send_window_update (some c2) 0 inc).2)
          else (c2, [])
        else (c2, [])
      let c3 := connStep.1
      let fr1 := connStep.2
      if s.local_window_size < dl then ⟨-1, some c3, some s, fr1⟩
      else
        let s2 := { s with local_window_size := wrap32 (s.local_window_size - data_len) }
        let streamStep :=
          if s2.local_window_size < 32767 then
            let inc := uint32_of (65535 - s2.local_window_size)
            if inc > 0 then
              ({ s2 with local_window_size := 65535 },
               (http2_flow_control_send_window_update (some c3) s2.id inc).2)
            else (s2, [])
          else (s2, [])
        ⟨0, some c3, some streamStep.1, fr1 ++ streamStep.2⟩

/-- grpc_server state relevant here (src/src/grpc_internal.h
lines 134-147): the started and shutdown flags and the ports added so
far, recorded by the port number stored into the sockaddr (the parsed
port, as in the source). -/
structure ServerState where
  started : Bool
  shutdown_called : Bool
  ports : List Nat
deriving DecidableEq

/-- grpc_server_destroy from src/src/grpc_server.c lines 288-305: NULL
is a no-op; otherwise listening sockets are closed and the state
freed. -/
def grpc_server_destroy (server : Option ServerState) : Option ServerState :=
  match server with
  | none => none
  | some _ => none

/-- Outcome of the socket system calls made by
grpc_server_add_insecure_http2_port: whether socket, bind and listen
succeed, and the port the kernel actually binds (which equals the
requested port when that is nonzero, and is kernel-chosen when the
requested port is 0). The source never reads the kernel-assigned port
back (no getsockname call), which this model makes explicit by never
consulting assigned_port. -/
structure SocketOS where
  socket_ok : Bool
  bind_ok : Bool
  listen_ok : Bool
  assigned_port : Nat
deriving DecidableEq

/-- Digit-prefix loop of atoi as used on the text after the colon. -/
def atoiLoop : List Char → Nat → Nat
  | [], acc => acc
  | ch :: rest, acc =>
    if ch.isDigit then atoiLoop rest (acc * 10 + (ch.toNat - 48)) else acc

/-- grpc_server_add_insecure_http2_port from src/src/grpc_server.c
lines 55-140. NULL server or address, or a started server, return 0;
the address is split at the first colon, the port parsed with atoi
(default 50051 when no colon); socket, SO_REUSEADDR, bind and listen
with backlog 128 follow, any failure returning 0 after cleanup. On
success the port is appended to the server and the PARSED port is
returned - the kernel-assigned port is never queried. -/
def grpc_server_add_insecure_http2_port (server : Option ServerState)
    (addr : Option (List Char)) (os : SocketOS) : Nat × Option ServerState :=
  match server, addr with
  | none, _ => (0, none)
  | some s, none => (0, some s)
  | some s, some a =>
    if s.started then (0, some s)
    else
      let port := if a.any (· == ':') then atoiLoop ((a.dropWhile (· != ':')).drop 1) 0
                  else 50051
      if os.socket_ok = false then (0, some s)
      else if os.bind_ok = false then (0, some s)
      else if os.listen_ok = false then (0, some s)
      else (port, some { s with ports := s.ports ++ [port] })

/-- grpc_server_add_secure_http2_port from src/src/grpc_server.c
lines 142-151: the credentials are ignored and the insecure path is
taken. -/
def grpc_server_add_secure_http2_port (server : Option ServerState)
    (addr : Option (List Char)) (os : SocketOS) : Nat × Option ServerState :=
  grpc_server_add_insecure_http2_port server addr os

/-- Connection state right after http2_connection_create for a client:
both windows at the initial 65535. -/
def c5SampleConn : Http2Connection := http2_connection_create true

/-- Stream whose local (receive) window has already dropped to 10. -/
def c6SampleStream : Http2Stream := ⟨1, 10, 65535⟩

/-- Connection window value reached by the consume-recv spec: decrement
by n, then restore to 65535 whenever the result fell below
65535 / 2 = 32767. -/
def connRecvStep (c : Http2Connection) (n : Nat) : Http2Connection :=
  if c.local_window_size - n < 32767 then { c with local_window_size := 65535 }
  else { c with local_window_size := c.local_window_size - n }

/-- WINDOW_UPDATE frames the connection scope emits during consume-recv:
one frame with increment 65535 - current exactly when the decremented
window fell below 32767. -/
def connRecvFrames (c : Http2Connection) (n : Nat) : List WindowUpdateFrame :=
  if c.local_window_size - n < 32767 then
    [⟨0, (65535 - (c.local_window_size - n)).toNat⟩]
  else []

/-- Stream window value reached by the consume-recv spec. -/
def streamRecvStep (s : Http2Stream) (n : Nat) : Http2Stream :=
  if s.local_window_size - n < 32767 then { s with local_window_size := 65535 }
  else { s with local_window_size := s.local_window_size - n }

/-- WINDOW_UPDATE frames the stream scope emits during consume-recv. -/
def streamRecvFrames (s : Http2Stream) (n : Nat) : List WindowUpdateFrame :=
  if s.local_window_size - n < 32767 then
    [⟨s.id, (65535 - (s.local_window_size - n)).toNat⟩]
  else []

/-- The address string 0.0.0.0:0 as passed to the port-binding test. -/
def c7Addr : List Char := ['0', '.', '0', '.', '0', '.', '0', ':', '0']

theorem hpackIntBytes_ne_nil (fuel v : Nat) : hpackIntBytes fuel v ≠ [] := by
  cases fuel with
  | zero => simp [hpackIntBytes]
  | succ fuel => by_cases h : v < 128 <;> simp [hpackIntBytes, h]

theorem hpackIntBytes_length_pos (fuel v : Nat) : 1 ≤ (hpackIntBytes fuel v).length :=
  List.length_pos.mpr (hpackIntBytes_ne_nil fuel v)

theorem hpackIntBytes_base (fuel v : Nat) (h : v < 128) :
    hpackIntBytes (fuel + 1) v = [v] := by
  simp [hpackIntBytes, h]

theorem hpackIntBytes_cons (fuel v : Nat) (h : ¬ v < 128) :
    hpackIntBytes (fuel + 1) v = (v % 128 + 128) :: hpackIntBytes fuel (v / 128) := by
  simp [hpackIntBytes, h]

theorem hpackIntLoop_small (fuel v room : Nat) (h : v < 128) :
    hpackIntLoop (fuel + 1) v room =
      if room = 0 then ⟨none, []⟩ else ⟨some 1, [v]⟩ := by
  simp [hpackIntLoop, h]

theorem hpackIntLoop_zero_room (fuel v : Nat) (h : ¬ v < 128) :
    hpackIntLoop (fuel + 1) v 0 = ⟨none, []⟩ := by
  simp [hpackIntLoop, h]

theorem hpackIntLoop_cons (fuel v r : Nat) (h : ¬ v < 128) :
    hpackIntLoop (fuel + 1) v (r + 1) =
      ⟨(hpackIntLoop fuel (v / 128) r).ret.map (· + 1),
       (v % 128 + 128) :: (hpackIntLoop fuel (v / 128) r).written⟩ := by
  simp [hpackIntLoop, h]

theorem hpackIntDivLt (fuel v : Nat) (hv : v < 128 ^ (fuel + 1 + 1)) :
    v / 128 < 128 ^ (fuel + 1) := by
  rw [Nat.div_lt_iff_lt_mul (by norm_num : 0 < 128)]
  calc v < 128 ^ (fuel + 1 + 1) := hv
    _ = 128 ^ (fuel + 1) * 128 := by ring

theorem hpackIntBytes_length_le (fuel : Nat) :
    ∀ v, v < 128 ^ (fuel + 1) → (hpackIntBytes (fuel + 1) v).length ≤ fuel + 1 := by
  induction fuel with
  | zero =>
    intro v hv
    have h : v < 128 := by simpa using hv
    simp [hpackIntBytes_base, h]
  | succ fuel ih =>
    intro v hv
    by_cases h : v < 128
    · simp [hpackIntBytes_base, h]
    · have hlen := ih (v / 128) (hpackIntDivLt fuel v hv)
      rw [hpackIntBytes_cons _ _ h, List.length_cons]
      omega

theorem hpackIntLoop_eq (fuel : Nat) :
    ∀ v room, v < 128 ^ (fuel + 1) →
      hpackIntLoop (fuel + 1) v room =
        if (hpackIntBytes (fuel + 1) v).length ≤ room then
          ⟨some (hpackIntBytes (fuel + 1) v).length, hpackIntBytes (fuel + 1) v⟩
        else ⟨none, (hpackIntBytes (fuel + 1) v).take room⟩ := by
  induction fuel with
  | zero =>
    intro v room hv
    have h : v < 128 := by simpa using hv
    rw [hpackIntBytes_base _ _ h, hpackIntLoop_small _ _ _ h]
    cases room with
    | zero => simp
    | succ r => simp
  | succ fuel ih =>
    intro v room hv
    by_cases h : v < 128
    · rw [hpackIntBytes_base _ _ h, hpackIntLoop_small _ _ _ h]
      cases room with
      | zero => simp
      | succ r => simp
    · have hpos := hpackIntBytes_length_pos (fuel + 1) (v / 128)
      rw [hpackIntBytes_cons _ _ h]
      cases room with
      | zero =>
        rw [hpackIntLoop_zero_room _ _ h,
          if_neg (by simp only [List.length_cons]; omega)]
        simp
      | succ r =>
        rw [hpackIntLoop_cons _ _ _ h, ih (v / 128) r (hpackIntDivLt fuel v hv)]
        by_cases hlen : (hpackIntBytes (fuel + 1) (v / 128)).length ≤ r
        · rw [if_pos hlen, if_pos (by simp only [List.length_cons]; omega)]
          simp
        · rw [if_neg hlen, if_neg (by simp only [List.length_cons]; omega)]
          simp [List.take_succ_cons]

theorem hpackDecLoop_intBytes (fuel : Nat) :
    ∀ v acc m pos suffix, v < 128 ^ (fuel + 1) →
      acc + v * 2 ^ m < 4294967296 →
      m + 7 * ((hpackIntBytes (fuel + 1) v).length - 1) ≤ 28 →
      hpackDecLoop (hpackIntBytes (fuel + 1) v ++ suffix) acc m pos =
        some (acc + v * 2 ^ m, pos + (hpackIntBytes (fuel + 1) v).length) := by
  induction fuel with
  | zero =>
    intro v acc m pos suffix hv hacc _
    have h : v < 128 := by simpa using hv
    have h256 : v % 256 = v := Nat.mod_eq_of_lt (by omega)
    have h128 : v % 128 = v := Nat.mod_eq_of_lt h
    rw [hpackIntBytes_base _ _ h]
    simp only [List.cons_append, List.nil_append, hpackDecLoop, h256, h128,
      List.length_cons, List.length_nil]
    rw [if_pos h, Nat.mod_eq_of_lt hacc]
  | succ fuel ih =>
    intro v acc m pos suffix hv hacc hm
    by_cases h : v < 128
    · have h256 : v % 256 = v := Nat.mod_eq_of_lt (by omega)
      have h128 : v % 128 = v := Nat.mod_eq_of_lt h
      rw [hpackIntBytes_base _ _ h]
      simp only [List.cons_append, List.nil_append, hpackDecLoop, h256, h128,
        List.length_cons, List.length_nil]
      rw [if_pos h, Nat.mod_eq_of_lt hacc]
    · have hkey : v % 128 * 2 ^ m + v / 128 * 2 ^ (m + 7) = v * 2 ^ m := by
        have hp7 : (2 : Nat) ^ (m + 7) = 2 ^ m * 128 := by rw [pow_add]; norm_num
        calc v % 128 * 2 ^ m + v / 128 * 2 ^ (m + 7)
            = (v % 128 + 128 * (v / 128)) * 2 ^ m := by rw [hp7]; ring
          _ = v * 2 ^ m := by rw [Nat.mod_add_div]
      have hvm : v % 128 < 128 := by omega
      have hb256 : (v % 128 + 128) % 256 = v % 128 + 128 := Nat.mod_eq_of_lt (by omega)
      have hb128 : (v % 128 + 128) % 128 = v % 128 := by omega
      have hmono : v % 128 * 2 ^ m ≤ v * 2 ^ m :=
        Nat.mul_le_mul_right _ (Nat.mod_le v 128)
      have hacc2 : acc + v % 128 * 2 ^ m < 4294967296 := by omega
      have hpos2 := hpackIntBytes_length_pos (fuel + 1) (v / 128)
      rw [hpackIntBytes_cons _ _ h, List.length_cons] at hm
      have hm7 : ¬ (m + 7 > 28) := by omega
      have hrec := ih (v / 128) (acc + v % 128 * 2 ^ m) (m + 7) (pos + 1) suffix
        (hpackIntDivLt fuel v hv)
        (by rw [Nat.add_assoc, hkey]; exact hacc)
        (by omega)
      rw [hpackIntBytes_cons _ _ h, List.length_cons, List.cons_append]
      simp only [hpackDecLoop, hb256, hb128, Nat.mod_eq_of_lt hacc2]
      rw [if_neg (by omega : ¬ v % 128 + 128 < 128), if_neg hm7, hrec]
      simp only [Option.some.injEq, Prod.mk.injEq]
      constructor
      · rw [Nat.add_assoc, hkey]
      · omega

theorem hpackResidualLt (value p : Nat) :
    value % 4294967296 - (2 ^ p - 1) < 128 ^ (4 + 1) := by
  have h1 : value % 4294967296 < 4294967296 := Nat.mod_lt _ (by norm_num)
  have h2 : (128 : Nat) ^ (4 + 1) = 34359738368 := by norm_num
  omega

theorem hpack_encode_integer_eq (value p L : Nat) (hp : p ≤ 7) (hL : L ≠ 0) :
    hpack_encode_integer value p L =
      if value % 4294967296 < 2 ^ p - 1 then ⟨some 1, [value % 4294967296]⟩
      else if (hpackIntBytes 5 (value % 4294967296 - (2 ^ p - 1))).length ≤ L - 1 then
        ⟨some ((hpackIntBytes 5 (value % 4294967296 - (2 ^ p - 1))).length + 1),
         (2 ^ p - 1) :: hpackIntBytes 5 (value % 4294967296 - (2 ^ p - 1))⟩
      else
        ⟨none,
         (2 ^ p - 1) ::
           (hpackIntBytes 5 (value % 4294967296 - (2 ^ p - 1))).take (L - 1)⟩ := by
  simp only [hpack_encode_integer]
  rw [if_neg (by omega : ¬ (L = 0 ∨ p > 7))]
  by_cases hsm : value % 4294967296 < 2 ^ p - 1
  · rw [if_pos hsm, if_pos hsm]
  · rw [if_neg hsm, if_neg hsm]
    rw [show (5 : Nat) = 4 + 1 from rfl,
      hpackIntLoop_eq 4 _ _ (hpackResidualLt value p)]
    by_cases hlen :
        (hpackIntBytes (4 + 1) (value % 4294967296 - (2 ^ p - 1))).length ≤ L - 1
    · rw [if_pos hlen, if_pos hlen]
      simp
    · rw [if_neg hlen, if_neg hlen]
      simp

theorem hpack_encode_integer_ret_length (value p L n : Nat)
    (h : (hpack_encode_integer value p L).ret = some n) :
    (hpack_encode_integer value p L).written.length = n := by
  by_cases hg : L = 0 ∨ p > 7
  · rw [show hpack_encode_integer value p L = ⟨none, []⟩ from by
      simp only [hpack_encode_integer, if_pos hg]] at h
    simp at h
  · push_neg at hg
    obtain ⟨hL, hp⟩ := hg
    rw [hpack_encode_integer_eq value p L (by omega) hL] at h ⊢
    by_cases hsm : value % 4294967296 < 2 ^ p - 1
    · rw [if_pos hsm] at h ⊢
      simp at h ⊢
      omega
    · rw [if_neg hsm] at h ⊢
      by_cases hlen :
          (hpackIntBytes 5 (value % 4294967296 - (2 ^ p - 1))).length ≤ L - 1
      · rw [if_pos hlen] at h ⊢
        simp at h ⊢
        omega
      · rw [if_neg hlen] at h
        simp at h

theorem hpack_encode_integer_written_le (value p L : Nat) :
    (hpack_encode_integer value p L).written.length ≤ L := by
  by_cases hg : L = 0 ∨ p > 7
  · rw [show hpack_encode_integer value p L = ⟨none, []⟩ from by
      simp only [hpack_encode_integer, if_pos hg]]
    simp
  · push_neg at hg
    obtain ⟨hL, hp⟩ := hg
    rw [hpack_encode_integer_eq value p L (by omega) hL]
    by_cases hsm : value % 4294967296 < 2 ^ p - 1
    · rw [if_pos hsm]
      simp
      omega
    · rw [if_neg hsm]
      by_cases hlen :
          (hpackIntBytes 5 (value % 4294967296 - (2 ^ p - 1))).length ≤ L - 1
      · rw [if_pos hlen]
        simp only [List.length_cons]
        omega
      · rw [if_neg hlen]
        simp only [List.length_cons, List.length_take]
        omega

theorem hpack_encode_integer_too_small (value p L : Nat) (hp : p ≤ 7)
    (hL : L < hpackIntEncodedLen value p) :
    (hpack_encode_integer value p L).ret = none := by
  simp only [hpackIntEncodedLen] at hL
  by_cases hL0 : L = 0
  · rw [show hpack_encode_integer value p L = ⟨none, []⟩ from by
      simp only [hpack_encode_integer, if_pos (Or.inl hL0)]]
  · rw [hpack_encode_integer_eq value p L hp hL0]
    by_cases hsm : value % 4294967296 < 2 ^ p - 1
    · rw [if_pos hsm] at hL
      omega
    · rw [if_neg hsm] at hL
      rw [if_neg hsm,
        if_neg (by omega :
          ¬ (hpackIntBytes 5 (value % 4294967296 - (2 ^ p - 1))).length ≤ L - 1)]

theorem hpack_encode_integer_success (value p L : Nat) (hp : p ≤ 7) (hL : 6 ≤ L) :
    (hpack_encode_integer value p L).ret = some (hpackIntEncodedLen value p) := by
  have hL0 : L ≠ 0 := by omega
  rw [hpack_encode_integer_eq value p L hp hL0]
  simp only [hpackIntEncodedLen]
  by_cases hsm : value % 4294967296 < 2 ^ p - 1
  · rw [if_pos hsm, if_pos hsm]
  · rw [if_neg hsm, if_neg hsm]
    have hlen := hpackIntBytes_length_le 4 _ (hpackResidualLt value p)
    rw [if_pos (by omega :
      (hpackIntBytes (4 + 1) (value % 4294967296 - (2 ^ p - 1))).length ≤ L - 1)]
    simp only [EncResult.mk.injEq, Option.some.injEq, and_true]
    omega

theorem hpackIntRoundtripSuffix (value p L n : Nat) (suffix : List Nat)
    (h32 : value < 4294967296) (hp : p ≤ 7)
    (hret : (hpack_encode_integer value p L).ret = some n) :
    hpack_decode_integer ((hpack_encode_integer value p L).written ++ suffix) p
      = some (value, n) := by
  have hp128 : (2 : Nat) ^ p ≤ 128 :=
    calc (2 : Nat) ^ p ≤ 2 ^ 7 := Nat.pow_le_pow_right (by norm_num) hp
      _ = 128 := by norm_num
  have hppos : 1 ≤ (2 : Nat) ^ p := Nat.one_le_two_pow
  by_cases hL0 : L = 0
  · rw [show hpack_encode_integer value p L = ⟨none, []⟩ from by
      simp only [hpack_encode_integer, if_pos (Or.inl hL0)]] at hret
    simp at hret
  · have hmod : value % 4294967296 = value := Nat.mod_eq_of_lt h32
    rw [hpack_encode_integer_eq value p L hp hL0, hmod] at hret ⊢
    by_cases hsm : value < 2 ^ p - 1
    · rw [if_pos hsm] at hret ⊢
      simp only at hret ⊢
      have hn : n = 1 := by simpa using hret.symm
      have h256 : value % 256 = value := Nat.mod_eq_of_lt (by omega)
      have hvp : value % 2 ^ p = value := Nat.mod_eq_of_lt (by omega)
      simp only [List.cons_append, hpack_decode_integer]
      rw [if_neg (by omega : ¬ p > 7)]
      simp only [h256, hvp]
      rw [if_pos hsm, hn]
    · rw [if_neg hsm] at hret ⊢
      by_cases hlen :
          (hpackIntBytes 5 (value - (2 ^ p - 1))).length ≤ L - 1
      · rw [if_pos hlen] at hret ⊢
        simp only at hret ⊢
        have hn : n = (hpackIntBytes 5 (value - (2 ^ p - 1))).length + 1 := by
          simpa using hret.symm
        have hmp256 : (2 ^ p - 1) % 256 = 2 ^ p - 1 := Nat.mod_eq_of_lt (by omega)
        have hmpp : (2 ^ p - 1) % 2 ^ p = 2 ^ p - 1 := Nat.mod_eq_of_lt (by omega)
        simp only [List.cons_append, hpack_decode_integer]
        rw [if_neg (by omega : ¬ p > 7)]
        simp only [hmp256, hmpp]
        rw [if_neg (by omega : ¬ 2 ^ p - 1 < 2 ^ p - 1)]
        have hres : value - (2 ^ p - 1) < 128 ^ (4 + 1) := by
          have h5 : (128 : Nat) ^ (4 + 1) = 34359738368 := by norm_num
          omega
        have hdec := hpackDecLoop_intBytes 4 (value - (2 ^ p - 1)) (2 ^ p - 1) 0 1
          suffix hres
          (by
            have hz : (value - (2 ^ p - 1)) * 2 ^ 0 = value - (2 ^ p - 1) := by
              simp
            omega)
          (by
            have hlen5 := hpackIntBytes_length_le 4 (value - (2 ^ p - 1)) hres
            omega)
        rw [show (5 : Nat) = 4 + 1 from rfl] at hn ⊢
        rw [hdec]
        have hle : 2 ^ p - 1 ≤ value := by omega
        simp only [pow_zero, mul_one, Option.some.injEq, Prod.mk.injEq]
        omega
      · rw [if_neg hlen] at hret
        simp at hret

theorem hpackDecLoop_le (rest : List Nat) :
    ∀ acc m pos v n, hpackDecLoop rest acc m pos = some (v, n) →
      n ≤ pos + rest.length := by
  induction rest with
  | nil =>
    intro acc m pos v n h
    simp [hpackDecLoop] at h
  | cons b tl ih =>
    intro acc m pos v n h
    simp only [hpackDecLoop] at h
    by_cases hb : b % 256 < 128
    · rw [if_pos hb] at h
      simp only [Option.some.injEq, Prod.mk.injEq] at h
      simp only [List.length_cons]
      omega
    · rw [if_neg hb] at h
      by_cases hm : m + 7 > 28
      · rw [if_pos hm] at h
        simp at h
      · rw [if_neg hm] at h
        have := ih _ _ _ _ _ h
        simp only [List.length_cons]
        omega

theorem hpack_decode_integer_read_le (input : List Nat) (p v n : Nat)
    (h : hpack_decode_integer input p = some (v, n)) : n ≤ input.length := by
  cases input with
  | nil =>
    simp only [hpack_decode_integer] at h
    by_cases hp : p > 7
    · rw [if_pos hp] at h
      simp at h
    · rw [if_neg hp] at h
      simp at h
  | cons b rest =>
    simp only [hpack_decode_integer] at h
    by_cases hp : p > 7
    · rw [if_pos hp] at h
      simp at h
    · rw [if_neg hp] at h
      by_cases hsm : b % 256 % 2 ^ p < 2 ^ p - 1
      · rw [if_pos hsm] at h
        simp only [Option.some.injEq, Prod.mk.injEq] at h
        simp only [List.length_cons]
        omega
      · rw [if_neg hsm] at h
        have := hpackDecLoop_le rest _ _ _ _ _ h
        simp only [List.length_cons]
        omega

theorem hpack_encode_integer_ret_pos (value p L n : Nat)
    (h : (hpack_encode_integer value p L).ret = some n) : 1 ≤ n := by
  by_cases hg : L = 0 ∨ p > 7
  · rw [show hpack_encode_integer value p L = ⟨none, []⟩ from by
      simp only [hpack_encode_integer, if_pos hg]] at h
    simp at h
  · push_neg at hg
    obtain ⟨hL, hp⟩ := hg
    rw [hpack_encode_integer_eq value p L (by omega) hL] at h
    by_cases hsm : value % 4294967296 < 2 ^ p - 1
    · rw [if_pos hsm] at h
      simp at h
      omega
    · rw [if_neg hsm] at h
      by_cases hlen :
          (hpackIntBytes 5 (value % 4294967296 - (2 ^ p - 1))).length ≤ L - 1
      · rw [if_pos hlen] at h
        simp at h
        omega
      · rw [if_neg hlen] at h
        simp at h

theorem hpack_encode_literal_header_eq (name value : List Nat) (L : Nat)
    (h0 : ¬ L = 0) (h1 : ¬ L < 2 + (cStr name).length + (cStr value).length) :
    hpack_encode_literal_header name value L =
      (match (hpack_encode_integer (cStr name).length 7 (L - 1)).ret with
       | none =>
         ⟨none, 0 :: (hpack_encode_integer (cStr name).length 7 (L - 1)).written⟩
       | some nlb =>
         if 1 + nlb + (cStr name).length > L then
           ⟨none, 0 :: (hpack_encode_integer (cStr name).length 7 (L - 1)).written⟩
         else
           match (hpack_encode_integer (cStr value).length 7
               (L - (1 + nlb + (cStr name).length))).ret with
           | none =>
             ⟨none, 0 :: (hpack_encode_integer (cStr name).length 7 (L - 1)).written
               ++ cStr name
               ++ (hpack_encode_integer (cStr value).length 7
                   (L - (1 + nlb + (cStr name).length))).written⟩
           | some vlb =>
             if 1 + nlb + (cStr name).length + vlb + (cStr value).length > L then
               ⟨none, 0 :: (hpack_encode_integer (cStr name).length 7 (L - 1)).written
                 ++ cStr name
                 ++ (hpack_encode_integer (cStr value).length 7
                     (L - (1 + nlb + (cStr name).length))).written⟩
             else
               ⟨some (1 + nlb + (cStr name).length + vlb + (cStr value).length),
                0 :: (hpack_encode_integer (cStr name).length 7 (L - 1)).written
                  ++ cStr name
                  ++ (hpack_encode_integer (cStr value).length 7
                      (L - (1 + nlb + (cStr name).length))).written
                  ++ cStr value⟩) := by
  rw [hpack_encode_literal_header, if_neg h0, if_neg h1]

theorem hpack_encode_literal_header_written_le (name value : List Nat) (L : Nat) :
    (hpack_encode_literal_header name value L).written.length ≤ L := by
  by_cases h0 : L = 0
  · rw [show hpack_encode_literal_header name value L = ⟨none, []⟩ from by
      rw [hpack_encode_literal_header, if_pos h0]]
    simp
  · by_cases h1 : L < 2 + (cStr name).length + (cStr value).length
    · rw [show hpack_encode_literal_header name value L = ⟨none, []⟩ from by
        rw [hpack_encode_literal_header, if_neg h0, if_pos h1]]
      simp
    · rw [hpack_encode_literal_header_eq name value L h0 h1]
      have hw1 := hpack_encode_integer_written_le (cStr name).length 7 (L - 1)
      cases hr1 : (hpack_encode_integer (cStr name).length 7 (L - 1)).ret with
      | none =>
        dsimp only
        simp only [List.length_cons]
        omega
      | some nlb =>
        dsimp only
        have hr1len := hpack_encode_integer_ret_length _ _ _ _ hr1
        by_cases h2 : 1 + nlb + (cStr name).length > L
        · rw [if_pos h2]
          simp only [List.length_cons]
          omega
        · rw [if_neg h2]
          have hw2 := hpack_encode_integer_written_le (cStr value).length 7
            (L - (1 + nlb + (cStr name).length))
          cases hr2 : (hpack_encode_integer (cStr value).length 7
              (L - (1 + nlb + (cStr name).length))).ret with
          | none =>
            dsimp only
            simp only [List.length_cons, List.length_append]
            omega
          | some vlb =>
            dsimp only
            have hr2len := hpack_encode_integer_ret_length _ _ _ _ hr2
            by_cases h3 :
                1 + nlb + (cStr name).length + vlb + (cStr value).length > L
            · rw [if_pos h3]
              simp only [List.length_cons, List.length_append]
              omega
            · rw [if_neg h3]
              simp only [List.length_cons, List.length_append]
              omega

theorem hpack_encode_literal_header_too_small (name value : List Nat) (L : Nat)
    (h : L < 2 + (cStr name).length + (cStr value).length) :
    (hpack_encode_literal_header name value L).ret = none := by
  by_cases h0 : L = 0
  · rw [show hpack_encode_literal_header name value L = ⟨none, []⟩ from by
      rw [hpack_encode_literal_header, if_pos h0]]
  · rw [show hpack_encode_literal_header name value L = ⟨none, []⟩ from by
      rw [hpack_encode_literal_header, if_neg h0, if_pos h]]

theorem hpack_encode_literal_header_spec (name value : List Nat) (L n : Nat)
    (h : (hpack_encode_literal_header name value L).ret = some n) :
    ∃ nlb vlb,
      (hpack_encode_integer (cStr name).length 7 (L - 1)).ret = some nlb ∧
      (hpack_encode_integer (cStr value).length 7
          (L - (1 + nlb + (cStr name).length))).ret = some vlb ∧
      (hpack_encode_literal_header name value L).written =
        0 :: (hpack_encode_integer (cStr name).length 7 (L - 1)).written
          ++ cStr name
          ++ (hpack_encode_integer (cStr value).length 7
              (L - (1 + nlb + (cStr name).length))).written
          ++ cStr value ∧
      n = 1 + nlb + (cStr name).length + vlb + (cStr value).length := by
  by_cases h0 : L = 0
  · rw [show hpack_encode_literal_header name value L = ⟨none, []⟩ from by
      rw [hpack_encode_literal_header, if_pos h0]] at h
    simp at h
  · by_cases h1 : L < 2 + (cStr name).length + (cStr value).length
    · rw [show hpack_encode_literal_header name value L = ⟨none, []⟩ from by
        rw [hpack_encode_literal_header, if_neg h0, if_pos h1]] at h
      simp at h
    · rw [hpack_encode_literal_header_eq name value L h0 h1] at h ⊢
      cases hr1 : (hpack_encode_integer (cStr name).length 7 (L - 1)).ret with
      | none =>
        rw [hr1] at h
        simp at h
      | some nlb =>
        rw [hr1] at h
        dsimp only at h ⊢
        by_cases h2 : 1 + nlb + (cStr name).length > L
        · rw [if_pos h2] at h
          simp at h
        · rw [if_neg h2] at h ⊢
          cases hr2 : (hpack_encode_integer (cStr value).length 7
              (L - (1 + nlb + (cStr name).length))).ret with
          | none =>
            rw [hr2] at h
            simp at h
          | some vlb =>
            rw [hr2] at h
            dsimp only at h ⊢
            by_cases h3 :
                1 + nlb + (cStr name).length + vlb + (cStr value).length > L
            · rw [if_pos h3] at h
              simp at h
            · rw [if_neg h3] at h ⊢
              simp only [Option.some.injEq] at h
              exact ⟨nlb, vlb, rfl, hr2, rfl, by omega⟩

/-- Claim C4: for every value in 0 to 2 ^ 32 - 2 and every prefix_bits
in 1 to 7, decoding the bytes produced by hpack_encode_integer with a
sufficiently large output buffer (6 bytes or more always suffices)
returns the same value, and the reported bytes_read equals the
bytes_written returned by the encoder. -/
theorem c4_integer_roundtrip (value p L : Nat) (h1 : value ≤ 4294967294)
    (h2 : 1 ≤ p) (h3 : p ≤ 7) (h4 : 6 ≤ L) :
    ∃ n, (hpack_encode_integer value p L).ret = some n ∧
      hpack_decode_integer (hpack_encode_integer value p L).written p
        = some (value, n) := by
  have h32 : value < 4294967296 := by omega
  have hs := hpack_encode_integer_success value p L h3 h4
  refine ⟨hpackIntEncodedLen value p, hs, ?_⟩
  have hrt := hpackIntRoundtripSuffix value p L (hpackIntEncodedLen value p) []
    h32 h3 hs
  simpa using hrt

/-- Witness for claim C4 at value 300, prefix 5, buffer 6. -/
theorem c4_integer_roundtrip_witness :
    (300 : Nat) ≤ 4294967294 ∧ (1 : Nat) ≤ 5 ∧ (5 : Nat) ≤ 7 ∧ (6 : Nat) ≤ 6 ∧
      ∃ n, (hpack_encode_integer 300 5 6).ret = some n ∧
        hpack_decode_integer (hpack_encode_integer 300 5 6).written 5
          = some (300, n) :=
  ⟨by decide, by decide, by decide, by decide,
   c4_integer_roundtrip 300 5 6 (by decide) (by decide) (by decide) (by decide)⟩

/-- Claim C10: the HPACK codec never accesses outside the supplied
buffers. hpack_encode_integer stores at most output_len bytes and
returns -1 when prefix_bits exceeds 7 (storing nothing) or when the
buffer is smaller than the encoding; hpack_encode_literal_header stores
at most output_len bytes and returns -1 when the buffer is smaller than
the checked requirement; hpack_decode_integer reads at most input_len
bytes, and on success the returned byte count is at most input_len. -/
theorem c10_hpack_buffer_safety :
    (∀ value p L, (hpack_encode_integer value p L).written.length ≤ L) ∧
    (∀ value p L, 7 < p → (hpack_encode_integer value p L).ret = none ∧
        (hpack_encode_integer value p L).written = []) ∧
    (∀ value p L, p ≤ 7 → L < hpackIntEncodedLen value p →
        (hpack_encode_integer value p L).ret = none) ∧
    (∀ name value L, (hpack_encode_literal_header name value L).written.length ≤ L) ∧
    (∀ name value L, L < 2 + (cStr name).length + (cStr value).length →
        (hpack_encode_literal_header name value L).ret = none) ∧
    (∀ input p v n, hpack_decode_integer input p = some (v, n) → n ≤ input.length) := by
  refine ⟨hpack_encode_integer_written_le, ?_, hpack_encode_integer_too_small,
    hpack_encode_literal_header_written_le, hpack_encode_literal_header_too_small,
    hpack_decode_integer_read_le⟩
  intro value p L hp
  have he : hpack_encode_integer value p L = ⟨none, []⟩ := by
    simp only [hpack_encode_integer, if_pos (Or.inr hp)]
  rw [he]
  exact ⟨rfl, rfl⟩

/-- Witness for claim C10 at concrete inputs: value 1337 with prefix 5
into a 2-byte buffer, prefix 9 rejected, a too-small literal buffer,
and a 1-byte integer decode. -/
theorem c10_hpack_buffer_safety_witness :
    (hpack_encode_integer 1337 5 2).written.length ≤ 2 ∧
    (hpack_encode_integer 3 9 4).ret = none ∧
    ((5 : Nat) ≤ 7 ∧ (2 : Nat) < hpackIntEncodedLen 1337 5 ∧
      (hpack_encode_integer 1337 5 2).ret = none) ∧
    ((3 : Nat) < 2 + (cStr [107]).length + (cStr [118]).length ∧
      (hpack_encode_literal_header [107] [118] 3).ret = none) ∧
    (hpack_decode_integer [42] 7 = some (42, 1) ∧ (1 : Nat) ≤ ([42] : List Nat).length) :=
  ⟨c10_hpack_buffer_safety.1 1337 5 2,
   (c10_hpack_buffer_safety.2.1 3 9 4 (by decide)).1,
   ⟨by decide, by decide,
    c10_hpack_buffer_safety.2.2.1 1337 5 2 (by decide) (by decide)⟩,
   ⟨by decide, c10_hpack_buffer_safety.2.2.2.2.1 [107] [118] 3 (by decide)⟩,
   ⟨by decide, c10_hpack_buffer_safety.2.2.2.2.2 [42] 7 42 1 (by decide)⟩⟩

theorem cStr_eq_self (l : List Nat) (h : 0 ∉ l) : cStr l = l := by
  induction l with
  | nil => rfl
  | cons b tl ih =>
    simp only [List.mem_cons, not_or] at h
    have hb : (b != 0) = true := by
      simp only [bne_iff_ne]
      exact fun hb0 => h.1 hb0.symm
    simp only [cStr] at ih ⊢
    rw [List.takeWhile_cons, if_pos hb, ih h.2]

theorem hpack_encode_literal_header_ret_length (name value : List Nat) (L n : Nat)
    (h : (hpack_encode_literal_header name value L).ret = some n) :
    (hpack_encode_literal_header name value L).written.length = n := by
  obtain ⟨nlb, vlb, hr1, hr2, hw, hn⟩ := hpack_encode_literal_header_spec name value L n h
  have hw1 := hpack_encode_integer_ret_length _ _ _ _ hr1
  have hw2 := hpack_encode_integer_ret_length _ _ _ _ hr2
  rw [hw]
  simp only [List.length_cons, List.length_append]
  omega

theorem hpackLiteralRoundtripSuffix (name value : List Nat) (L n : Nat)
    (suffix : List Nat)
    (hnl : (cStr name).length < 4294967296)
    (hvl : (cStr value).length < 4294967296)
    (h : (hpack_encode_literal_header name value L).ret = some n) :
    hpack_decode_literal_header
        ((hpack_encode_literal_header name value L).written ++ suffix)
      = some (cStr name, cStr value, n) := by
  obtain ⟨nlb, vlb, hr1, hr2, hw, hn⟩ := hpack_encode_literal_header_spec name value L n h
  have hw1len : (hpack_encode_integer (cStr name).length 7 (L - 1)).written.length = nlb :=
    hpack_encode_integer_ret_length _ _ _ _ hr1
  have hw2len : (hpack_encode_integer (cStr value).length 7
      (L - (1 + nlb + (cStr name).length))).written.length = vlb :=
    hpack_encode_integer_ret_length _ _ _ _ hr2
  have hnlb1 : 1 ≤ nlb := hpack_encode_integer_ret_pos _ _ _ _ hr1
  have hvlb1 : 1 ≤ vlb := hpack_encode_integer_ret_pos _ _ _ _ hr2
  set w1 := (hpack_encode_integer (cStr name).length 7 (L - 1)).written with hw1def
  set w2 := (hpack_encode_integer (cStr value).length 7
      (L - (1 + nlb + (cStr name).length))).written with hw2def
  rw [hw]
  have hin : ((0 :: w1 ++ cStr name ++ w2 ++ cStr value) ++ suffix)
      = 0 :: (w1 ++ (cStr name ++ (w2 ++ (cStr value ++ suffix)))) := by
    simp [List.append_assoc]
  rw [hin]
  set t := w1 ++ (cStr name ++ (w2 ++ (cStr value ++ suffix))) with htdef
  have htlen : (0 :: t).length =
      1 + (nlb + ((cStr name).length + (vlb + ((cStr value).length + suffix.length)))) := by
    simp only [htdef, List.length_cons, List.length_append, hw1len, hw2len]
    omega
  have hlen2 : ¬ ((0 :: t).length < 2) := by omega
  rw [hpack_decode_literal_header, if_neg hlen2]
  have hdrop0 : (0 :: t).drop 1 = t := rfl
  have hd1 : hpack_decode_integer ((0 :: t).drop 1) 7
      = some ((cStr name).length, nlb) := by
    rw [hdrop0, htdef]
    exact hpackIntRoundtripSuffix (cStr name).length 7 (L - 1) nlb
      (cStr name ++ (w2 ++ (cStr value ++ suffix))) hnl (by norm_num) hr1
  rw [hd1]
  dsimp only
  rw [if_neg (by omega : ¬ 1 + nlb + (cStr name).length > (0 :: t).length)]
  have hdrop1 : (0 :: t).drop (1 + nlb) = cStr name ++ (w2 ++ (cStr value ++ suffix)) := by
    rw [show 1 + nlb = nlb + 1 by omega, List.drop_succ_cons, htdef, ← hw1len,
      List.drop_left]
  have hdrop2 : (0 :: t).drop (1 + nlb + (cStr name).length)
      = w2 ++ (cStr value ++ suffix) := by
    have hcomb : List.drop (cStr name).length (List.drop (1 + nlb) (0 :: t))
        = (0 :: t).drop (1 + nlb + (cStr name).length) := by
      rw [List.drop_drop]
    rw [← hcomb, hdrop1, List.drop_left]
  have hd2 : hpack_decode_integer ((0 :: t).drop (1 + nlb + (cStr name).length)) 7
      = some ((cStr value).length, vlb) := by
    rw [hdrop2]
    exact hpackIntRoundtripSuffix (cStr value).length 7
      (L - (1 + nlb + (cStr name).length)) vlb (cStr value ++ suffix) hvl
      (by norm_num) hr2
  rw [hd2]
  dsimp only
  rw [if_neg (by omega :
    ¬ 1 + nlb + (cStr name).length + vlb + (cStr value).length > (0 :: t).length)]
  have hdrop3 : (0 :: t).drop (1 + nlb + (cStr name).length + vlb)
      = cStr value ++ suffix := by
    have hcomb : List.drop vlb (List.drop (1 + nlb + (cStr name).length) (0 :: t))
        = (0 :: t).drop (1 + nlb + (cStr name).length + vlb) := by
      rw [List.drop_drop]
    rw [← hcomb, hdrop2, ← hw2len, List.drop_left]
  rw [hdrop1, hdrop3, List.take_left, List.take_left]
  simp only [Option.some.injEq, Prod.mk.injEq, true_and]
  omega

theorem hpackDecMetaLoop_succ_cons (fuel : Nat) (b : Nat) (rest : List Nat) :
    hpackDecMetaLoop (fuel + 1) (b :: rest) =
      (match hpack_decode_literal_header (b :: rest) with
       | none => none
       | some (key, value, n) =>
         match hpackDecMetaLoop fuel ((b :: rest).drop n) with
         | none => none
         | some tl => some (⟨key, value, (cStr value).length⟩ :: tl)) := rfl

theorem hpackMetaRoundtripAux (m : List Metadata) :
    ∀ L bs fuel,
      (∀ e ∈ m, (0 ∉ e.key) ∧ (0 ∉ e.value) ∧ e.value_length = e.value.length ∧
        e.key.length < 4294967296 ∧ e.value.length < 4294967296) →
      hpackEncMetaLoop m L = some bs →
      bs.length ≤ fuel →
      hpackDecMetaLoop fuel bs = some m := by
  induction m with
  | nil =>
    intro L bs fuel _ henc _
    simp only [hpackEncMetaLoop, Option.some.injEq] at henc
    subst henc
    cases fuel <;> rfl
  | cons e tl ih =>
    intro L bs fuel hyp henc hfuel
    have hyp1 := hyp e (List.mem_cons_self e tl)
    obtain ⟨hk0, hv0, hvlen, hklt, hvlt⟩ := hyp1
    have hck : cStr e.key = e.key := cStr_eq_self e.key hk0
    have hcv : cStr e.value = e.value := cStr_eq_self e.value hv0
    simp only [hpackEncMetaLoop] at henc
    cases hr : (hpack_encode_literal_header e.key e.value L).ret with
    | none =>
      rw [hr] at henc
      simp at henc
    | some n =>
      rw [hr] at henc
      dsimp only at henc
      cases hrest : hpackEncMetaLoop tl (L - n) with
      | none =>
        rw [hrest] at henc
        simp at henc
      | some rest =>
        rw [hrest] at henc
        dsimp only at henc
        simp only [Option.some.injEq] at henc
        subst henc
        have hwlen : (hpack_encode_literal_header e.key e.value L).written.length = n :=
          hpack_encode_literal_header_ret_length e.key e.value L n hr
        have hrt := hpackLiteralRoundtripSuffix e.key e.value L n rest
          (by rw [hck]; exact hklt) (by rw [hcv]; exact hvlt) hr
        have hn3 : 3 ≤ n := by
          obtain ⟨nlb, vlb, hr1, hr2, hw, hn⟩ :=
            hpack_encode_literal_header_spec e.key e.value L n hr
          have h1 := hpack_encode_integer_ret_pos _ _ _ _ hr1
          have h2 := hpack_encode_integer_ret_pos _ _ _ _ hr2
          omega
        have hbslen : ((hpack_encode_literal_header e.key e.value L).written
            ++ rest).length = n + rest.length := by
          simp only [List.length_append, hwlen]
        cases hwcase : (hpack_encode_literal_header e.key e.value L).written with
        | nil =>
          rw [hwcase] at hwlen
          simp at hwlen
          omega
        | cons b wt =>
          cases fuel with
          | zero =>
            rw [hbslen] at hfuel
            omega
          | succ f =>
            rw [hwcase] at hrt
            simp only [List.cons_append] at hrt
            show hpackDecMetaLoop (f + 1) (b :: (wt ++ rest)) = some (e :: tl)
            rw [hpackDecMetaLoop_succ_cons, hrt]
            dsimp only
            have hbwt : (b :: wt).length = n := by
              rw [← hwcase, hwlen]
            have hdropn : (b :: (wt ++ rest)).drop n = rest := by
              rw [← List.cons_append, ← hbwt]
              exact List.drop_left _ _
            rw [hdropn]
            have hrec := ih (L - n) rest f
              (fun x hx => hyp x (List.mem_cons_of_mem e hx)) hrest
              (by rw [hbslen] at hfuel; omega)
            rw [hrec]
            dsimp only
            simp only [hck, hcv]
            rw [← hvlen]

/-- Claim C1 (amended): for every metadata array whose keys and values
contain no zero byte (with lengths below 2 ^ 32, the uint32 range) and
whose value_length field equals the value byte length, decoding the
HPACK encoding returns the same metadata array, entries in the same
order with keys and values byte for byte. The claim as stated fails
for binary values with an interior zero byte: the encoder reads values
as NUL-terminated C strings (strlen) and ignores value_length, so such
a value is truncated at its first zero byte (see the counterexample
theorem). -/
theorem c1_metadata_roundtrip (m : List Metadata) (L : Nat) (bs : List Nat)
    (hm : ∀ e ∈ m, (0 ∉ e.key) ∧ (0 ∉ e.value) ∧ e.value_length = e.value.length ∧
        e.key.length < 4294967296 ∧ e.value.length < 4294967296)
    (henc : hpack_encode_metadata m L = some bs) :
    hpack_decode_metadata bs = some m :=
  hpackMetaRoundtripAux m L bs bs.length hm henc (Nat.le_refl _)

/-- Witness for claim C1 at a one-entry metadata array. -/
theorem c1_metadata_roundtrip_witness :
    (∀ e ∈ c1SampleGood, (0 ∉ e.key) ∧ (0 ∉ e.value) ∧
        e.value_length = e.value.length ∧
        e.key.length < 4294967296 ∧ e.value.length < 4294967296) ∧
    hpack_encode_metadata c1SampleGood 64 = some [0, 1, 107, 3, 118, 97, 108] ∧
    hpack_decode_metadata [0, 1, 107, 3, 118, 97, 108] = some c1SampleGood :=
  ⟨by decide, by decide,
   c1_metadata_roundtrip c1SampleGood 64 [0, 1, 107, 3, 118, 97, 108]
     (by decide) (by decide)⟩

/-- Counterexample for claim C1 as stated: the entry with key k and
binary value 97 0 98 of explicit length 3 encodes to a literal whose
value is just 97 (strlen stops at the zero byte), so decoding the
encoding yields a different metadata array. -/
theorem c1_metadata_counterexample :
    hpack_encode_metadata c1SampleNul 64 = some [0, 1, 107, 1, 97] ∧
    hpack_decode_metadata [0, 1, 107, 1, 97] = some [⟨[107], [97], 1⟩] ∧
    ([⟨[107], [97], 1⟩] : List Metadata) ≠ c1SampleNul :=
  ⟨by decide, by decide, by decide⟩

/-- Claim C2: the code violates the claim (and the repository API
documentation, which states that after shutdown no new events can be
added). completion_queue_push_event has no shutdown check: pushing onto
a queue that has been shut down still appends the event, and a
subsequent next call returns that event. This theorem evaluates the
code at the failing input: a freshly shut-down empty queue. -/
theorem c2_push_after_shutdown_appends :
    completion_queue_push_event
        (grpc_completion_queue_shutdown (some ⟨[], false⟩)) ⟨1, true, 7⟩
      = some ⟨[⟨1, true, 7⟩], true⟩ ∧
    (grpc_completion_queue_next
        (completion_queue_push_event
          (grpc_completion_queue_shutdown (some ⟨[], false⟩)) ⟨1, true, 7⟩) 0).1
      = ⟨1, true, 7⟩ :=
  ⟨by decide, by decide⟩

/-- Counterexample for claim C3 as stated: a batch submitted on a call
whose cancelled flag is set completes with success true, not false. The
source pushes a single success-true event at submission time without
processing any op. -/
theorem c3_batch_counterexample :
    grpc_call_start_batch (some ⟨true, true, 1⟩) ⟨[], false⟩ 1 5
      = (CallError.GRPC_CALL_OK, ⟨[⟨1, true, 5⟩], false⟩) := by decide

/-- Claim C3 (amended): for every call with a completion queue and every
submitted batch, exactly one event carrying the batch tag is enqueued
on the call completion queue - but immediately at submission and always
with success true: the source ignores the ops, so op failures,
deadlines, transport errors and cancellation never produce a
success-false batch event, and grpc_call_cancel only sets the cancelled
flag and the CANCELLED status without completing any batch. -/
theorem c3_batch_single_event (c : GrpcCall) (cq : CompletionQueue)
    (nops tag : Nat) (hcq : c.has_cq = true) :
    grpc_call_start_batch (some c) cq nops tag
      = (CallError.GRPC_CALL_OK,
         { cq with events := cq.events ++ [⟨1, true, tag⟩] }) ∧
    grpc_call_cancel (some c)
      = (CallError.GRPC_CALL_OK,
         some { c with cancelled := true, status := 1 }) := by
  constructor
  · simp only [grpc_call_start_batch, completion_queue_push_event, hcq]
    rw [if_neg (by decide : ¬ (true = false))]
  · simp only [grpc_call_cancel]

/-- Witness for claim C3 at a cancelled call with an empty queue. -/
theorem c3_batch_single_event_witness :
    (({ has_cq := true, cancelled := true, status := 1 } : GrpcCall).has_cq = true) ∧
    (grpc_call_start_batch
        (some { has_cq := true, cancelled := true, status := 1 }) ⟨[], false⟩ 1 5
      = (CallError.GRPC_CALL_OK,
         { events := ([] : List GrpcEvent) ++ [⟨1, true, 5⟩], shutdown := false }) ∧
     grpc_call_cancel (some { has_cq := true, cancelled := true, status := 1 })
      = (CallError.GRPC_CALL_OK,
         some { has_cq := true, cancelled := true, status := 1 })) :=
  ⟨rfl, c3_batch_single_event ⟨true, true, 1⟩ ⟨[], false⟩ 1 5 rfl⟩

theorem wrap32_of_small (x : Int) (h0 : 0 ≤ x) (h1 : x < 2147483648) :
    wrap32 x = x := by
  simp only [wrap32]
  rw [Int.emod_eq_of_lt h0 (by omega)]
  rw [if_pos (by omega)]

theorem uint32_of_small (x : Int) (h0 : 0 ≤ x) (h1 : x < 4294967296) :
    uint32_of x = x.toNat := by
  simp only [uint32_of]
  rw [Int.emod_eq_of_lt h0 h1]

/-- Counterexample for the atomicity part of claim C6: with connection
window 65535 and stream window 10, consuming 100 bytes fails the
stream-scope underflow check, but only after the connection-scope
window was already decremented to 65435: the function returns -1 with
one scope updated and the other untouched. -/
theorem c6_consume_recv_counterexample :
    http2_flow_control_consume_recv_window (some c5SampleConn)
        (some c6SampleStream) 100
      = ⟨-1, some { c5SampleConn with local_window_size := 65435 },
          some c6SampleStream, []⟩ ∧
    (⟨-1, some { c5SampleConn with local_window_size := 65435 },
       some c6SampleStream, []⟩ : ConsumeRecvResult).conn ≠ some c5SampleConn :=
  ⟨by decide, by decide⟩

/-- Claim C6 (amended): consume_recv decrements both local windows by
n and, for each scope whose decremented window drops below
65535 / 2 = 32767, emits a WINDOW_UPDATE with increment 65535 - current
and restores that scope to 65535; an n exceeding a window is rejected
with -1 as a protocol error - but the scopes are processed in
sequence, so when the stream-scope check fails the connection-scope
window has already been decremented and possibly replenished (the
connection scope is left updated, contrary to the no-partial-update
reading; see the counterexample theorem). Stated for windows in the
legal range [0, 65535] and n at most 65535. -/
theorem c6_consume_recv_spec (c : Http2Connection) (s : Http2Stream) (n : Nat)
    (hc0 : 0 ≤ c.local_window_size) (hc1 : c.local_window_size ≤ 65535)
    (hs0 : 0 ≤ s.local_window_size) (hs1 : s.local_window_size ≤ 65535)
    (hn : n ≤ 65535) :
    http2_flow_control_consume_recv_window (some c) (some s) n =
      (if c.local_window_size < (n : Int) then ⟨-1, some c, some s, []⟩
       else if s.local_window_size < (n : Int) then
         ⟨-1, some (connRecvStep c n), some s, connRecvFrames c n⟩
       else
         ⟨0, some (connRecvStep c n), some (streamRecvStep s n),
          connRecvFrames c n ++ streamRecvFrames s n⟩) := by
  have hnc : ((n : Int)) ≤ 65535 := by exact_mod_cast hn
  have hn0 : (0 : Int) ≤ (n : Int) := Int.natCast_nonneg n
  have hwn : wrap32 (n : Int) = (n : Int) := wrap32_of_small _ hn0 (by omega)
  simp only [http2_flow_control_consume_recv_window,
    http2_flow_control_send_window_update]
  rw [hwn]
  rw [if_neg (by omega : ¬ ((n : Int) < 0 ∨ (n : Int) > 65535))]
  by_cases h1 : c.local_window_size < (n : Int)
  · rw [if_pos h1, if_pos h1]
  · rw [if_neg h1, if_neg h1]
    push_neg at h1
    have hsub : wrap32 (c.local_window_size - (n : Int))
        = c.local_window_size - (n : Int) :=
      wrap32_of_small _ (by omega) (by omega)
    rw [hsub]
    have hu : uint32_of (65535 - (c.local_window_size - (n : Int)))
        = (65535 - (c.local_window_size - (n : Int))).toNat :=
      uint32_of_small _ (by omega) (by omega)
    rw [hu]
    simp only [connRecvStep, connRecvFrames, streamRecvStep, streamRecvFrames]
    by_cases hcl : c.local_window_size - (n : Int) < 32767
    · rw [if_pos hcl, if_pos hcl, if_pos hcl,
        if_pos (by omega : 0 < (65535 - (c.local_window_size - (n : Int))).toNat),
        if_neg (by omega :
          ¬ ((65535 - (c.local_window_size - (n : Int))).toNat = 0 ∨
             (65535 - (c.local_window_size - (n : Int))).toNat > 2147483647))]
      by_cases h2 : s.local_window_size < (n : Int)
      · rw [if_pos h2, if_pos h2]
      · rw [if_neg h2, if_neg h2]
        push_neg at h2
        have hsub2 : wrap32 (s.local_window_size - (n : Int))
            = s.local_window_size - (n : Int) :=
          wrap32_of_small _ (by omega) (by omega)
        rw [hsub2]
        have hu2 : uint32_of (65535 - (s.local_window_size - (n : Int)))
            = (65535 - (s.local_window_size - (n : Int))).toNat :=
          uint32_of_small _ (by omega) (by omega)
        rw [hu2]
        by_cases hsl : s.local_window_size - (n : Int) < 32767
        · rw [if_pos hsl, if_pos hsl,
            if_pos (by omega :
              0 < (65535 - (s.local_window_size - (n : Int))).toNat),
            if_neg (by omega :
              ¬ ((65535 - (s.local_window_size - (n : Int))).toNat = 0 ∨
                 (65535 - (s.local_window_size - (n : Int))).toNat > 2147483647))]
          simp [hsl]
        · rw [if_neg hsl, if_neg hsl]
          simp [hsl]
    · rw [if_neg hcl, if_neg hcl, if_neg hcl]
      by_cases h2 : s.local_window_size < (n : Int)
      · rw [if_pos h2, if_pos h2]
      · rw [if_neg h2, if_neg h2]
        push_neg at h2
        have hsub2 : wrap32 (s.local_window_size - (n : Int))
            = s.local_window_size - (n : Int) :=
          wrap32_of_small _ (by omega) (by omega)
        rw [hsub2]
        have hu2 : uint32_of (65535 - (s.local_window_size - (n : Int)))
            = (65535 - (s.local_window_size - (n : Int))).toNat :=
          uint32_of_small _ (by omega) (by omega)
        rw [hu2]
        by_cases hsl : s.local_window_size - (n : Int) < 32767
        · rw [if_pos hsl, if_pos hsl,
            if_pos (by omega :
              0 < (65535 - (s.local_window_size - (n : Int))).toNat),
            if_neg (by omega :
              ¬ ((65535 - (s.local_window_size - (n : Int))).toNat = 0 ∨
                 (65535 - (s.local_window_size - (n : Int))).toNat > 2147483647))]
          simp [hsl]
        · rw [if_neg hsl, if_neg hsl]
          simp [hsl]

/-- Witness for claim C6: connection window 40000, stream window 50000,
consume 20000 bytes; both scopes drop below 32767 resp. stay above. -/
theorem c6_consume_recv_spec_witness :
    ((0 : Int) ≤ (⟨40000, 65535⟩ : Int × Int).1 ∧ True) ∧
    http2_flow_control_consume_recv_window
        (some { c5SampleConn with local_window_size := 40000 })
        (some ⟨9, 50000, 65535⟩) 20000
      = (if ({ c5SampleConn with local_window_size := 40000 }
              : Http2Connection).local_window_size < ((20000 : Nat) : Int) then
           ⟨-1, some { c5SampleConn with local_window_size := 40000 },
            some ⟨9, 50000, 65535⟩, []⟩
         else if (⟨9, 50000, 65535⟩ : Http2Stream).local_window_size
             < ((20000 : Nat) : Int) then
           ⟨-1, some (connRecvStep { c5SampleConn with local_window_size := 40000 } 20000),
            some ⟨9, 50000, 65535⟩,
            connRecvFrames { c5SampleConn with local_window_size := 40000 } 20000⟩
         else
           ⟨0, some (connRecvStep { c5SampleConn with local_window_size := 40000 } 20000),
            some (streamRecvStep ⟨9, 50000, 65535⟩ 20000),
            connRecvFrames { c5SampleConn with local_window_size := 40000 } 20000
              ++ streamRecvFrames ⟨9, 50000, 65535⟩ 20000⟩) :=
  ⟨⟨by decide, trivial⟩,
   c6_consume_recv_spec { c5SampleConn with local_window_size := 40000 }
     ⟨9, 50000, 65535⟩ 20000 (by decide) (by decide) (by decide) (by decide)
     (by decide)⟩

theorem wrap32_le (n : Int) : wrap32 n ≤ 2147483647 := by
  simp only [wrap32]
  have h1 : 0 ≤ n % 4294967296 := Int.emod_nonneg n (by norm_num)
  have h2 : n % 4294967296 < 4294967296 := Int.emod_lt_of_pos n (by norm_num)
  split <;> omega

/-- Claim C5: the code violates the overflow clause. The remote window
is an int32_t, so the post-addition check against 0x7FFFFFFF can never
fire (wrap32 of any value is at most 2 ^ 31 - 1): adding the maximal
legal increment 2 ^ 31 - 1 to the initial window 65535 wraps the
stored window to the negative value -2147418114 and the function
returns success, instead of the protocol error the claim requires,
breaking the [0, 2 ^ 31 - 1] window invariant. -/
theorem c5_window_update_overflow_missed :
    http2_flow_control_receive_window_update (some c5SampleConn) 0 2147483647
      = (0, some { c5SampleConn with remote_window_size := -2147418114 }) ∧
    (-2147418114 : Int) < 0 ∧
    (∀ n : Int, wrap32 n ≤ 2147483647) :=
  ⟨by decide, by decide, wrap32_le⟩

/-- Claim C7: the code violates the claim (and its own header comment,
which documents the return as the bound port). For the address
0.0.0.0:0 with socket, bind and listen all succeeding and the kernel
assigning port 54321, the function returns the port parsed from the
address string - 0 - because it never queries the socket
(no getsockname); the secure variant routes through the same path. -/
theorem c7_add_port_returns_parsed_port :
    (grpc_server_add_insecure_http2_port (some ⟨false, false, []⟩)
        (some c7Addr) ⟨true, true, true, 54321⟩).1 = 0 ∧
    ¬ ((grpc_server_add_insecure_http2_port (some ⟨false, false, []⟩)
        (some c7Addr) ⟨true, true, true, 54321⟩).1 > 0) ∧
    (grpc_server_add_secure_http2_port (some ⟨false, false, []⟩)
        (some c7Addr) ⟨true, true, true, 54321⟩).1 = 0 :=
  ⟨by decide, by decide, by decide⟩

theorem assignedStreamIds_eq (N : Nat) :
    ∀ conn : Http2Connection, conn.next_stream_id + 2 * N ≤ 4294967296 →
      assignedStreamIds conn N
        = (List.range N).map (fun k => conn.next_stream_id + 2 * k) := by
  induction N with
  | zero =>
    intro conn _
    rfl
  | succ N ih =>
    intro conn h
    cases N with
    | zero =>
      simp [assignedStreamIds, grpc_channel_create_call_assign,
        List.range_succ_eq_map]
    | succ M =>
      have hmod : (conn.next_stream_id + 2) % 4294967296 = conn.next_stream_id + 2 :=
        Nat.mod_eq_of_lt (by omega)
      have hrec := ih { conn with
          next_stream_id := (conn.next_stream_id + 2) % 4294967296 }
        (by simp only [hmod]; omega)
      dsimp only at hrec
      simp only [hmod] at hrec
      rw [show assignedStreamIds conn (M + 1 + 1)
          = conn.next_stream_id :: assignedStreamIds { conn with
              next_stream_id := (conn.next_stream_id + 2) % 4294967296 } (M + 1)
          from rfl]
      rw [hmod, hrec, List.range_succ_eq_map (M + 1), List.map_cons, List.map_map]
      refine List.cons_eq_cons.mpr ⟨by omega, ?_⟩
      apply List.map_congr_left
      intro k _
      simp only [Function.comp_apply]
      omega

/-- Claim C8: on a client connection next_stream_id starts at 1 (2 for
a server) and every call creation takes the current value and advances
it by 2, so creating N calls assigns N distinct odd stream ids in
strictly increasing order, each greater than every previously assigned
id. The hypothesis keeps the uint32_t counter below its wrap-around. -/
theorem c8_stream_ids_monotonic (N : Nat) (h : 1 + 2 * N ≤ 4294967296) :
    (assignedStreamIds (http2_connection_create true) N).length = N ∧
    (∀ id ∈ assignedStreamIds (http2_connection_create true) N, id % 2 = 1) ∧
    (assignedStreamIds (http2_connection_create true) N).Pairwise (· < ·) ∧
    (assignedStreamIds (http2_connection_create true) N).Nodup ∧
    (http2_connection_create true).next_stream_id = 1 ∧
    (http2_connection_create false).next_stream_id = 2 := by
  have he := assignedStreamIds_eq N (http2_connection_create true)
    (by simpa [http2_connection_create] using h)
  rw [show (http2_connection_create true).next_stream_id = 1 from rfl] at he
  have hp : (assignedStreamIds (http2_connection_create true) N).Pairwise (· < ·) := by
    rw [he]
    refine List.Pairwise.map _ ?_ (List.pairwise_lt_range N)
    intro a b hab
    omega
  refine ⟨?_, ?_, hp, hp.nodup, rfl, rfl⟩
  · rw [he]
    simp
  · rw [he]
    intro id hid
    simp only [List.mem_map, List.mem_range] at hid
    obtain ⟨k, _, hk⟩ := hid
    omega

/-- Witness for claim C8 at N = 3: ids 1, 3, 5. -/
theorem c8_stream_ids_monotonic_witness :
    1 + 2 * 3 ≤ 4294967296 ∧
    ((assignedStreamIds (http2_connection_create true) 3).length = 3 ∧
     (∀ id ∈ assignedStreamIds (http2_connection_create true) 3, id % 2 = 1) ∧
     (assignedStreamIds (http2_connection_create true) 3).Pairwise (· < ·) ∧
     (assignedStreamIds (http2_connection_create true) 3).Nodup ∧
     (http2_connection_create true).next_stream_id = 1 ∧
     (http2_connection_create false).next_stream_id = 2) :=
  ⟨by decide, c8_stream_ids_monotonic 3 (by decide)⟩

/-- Claim C9: every public operation given a NULL handle fails safely
without touching any state: next on NULL returns the zero event with
type -1 for every deadline, cancel on NULL returns GRPC_CALL_ERROR, and
the destroy and shutdown operations (completion queue, call, channel,
server, byte buffer) are no-ops on NULL. -/
theorem c9_null_safety :
    (∀ d : Int, grpc_completion_queue_next none d = (⟨-1, false, 0⟩, none)) ∧
    grpc_call_cancel none = (CallError.GRPC_CALL_ERROR, none) ∧
    grpc_completion_queue_shutdown none = none ∧
    grpc_completion_queue_destroy none = none ∧
    grpc_call_destroy none = none ∧
    grpc_channel_destroy none = none ∧
    grpc_server_destroy none = none ∧
    grpc_byte_buffer_destroy none = none :=
  ⟨fun _ => rfl, rfl, rfl, rfl, rfl, rfl, rfl, rfl⟩

end GrpcC
